import Mathlib

/-! Verification development for the Fidakune lexicon proposal analyzer
(`scripts/analyze_proposal.py`).

Modelling conventions:
* Python `str` values are modelled as `List Char` (abbreviated `Str`);
* Python floats are modelled as rationals (`ℚ`): the similarity arithmetic is
  viewed exactly, as the specification states it;
* Python sets of strings/characters are modelled as lists with membership;
* the analyzer's result dictionary is modelled as explicit structures, and
  the formatted message strings as an inductive type carrying exactly the
  data that the source interpolates into each message;
* exceptions cannot occur in the pure model, so the `except` branches of the
  source (which only guard against runtime errors) have no counterpart.
-/

namespace Fidakune

abbrev Str := List Char

/-! ### Definitions: edit distance -/

/-- Classic Levenshtein edit distance: the minimum number of single-character
insertions, deletions and substitutions turning one string into the other.
This is the reference definition of edit distance; the row-based dynamic
program of `_levenshtein_distance` is proved equal to it below. -/
def levenshtein : Str → Str → Nat
  | [], ys => ys.length
  | x :: xs, [] => (x :: xs).length
  | x :: xs, y :: ys =>
      min (min (levenshtein (x :: xs) ys + 1) (levenshtein xs (y :: ys) + 1))
        (levenshtein xs ys + if x = y then 0 else 1)
termination_by a b => a.length + b.length
decreasing_by all_goals (simp only [List.length_cons]; omega)

/-- Inner loop of `_levenshtein_distance`: given the remaining characters of
`s2`, the corresponding remainder of `previous_row` (whose head plays the
role of `previous_row[j]` and second element of `previous_row[j+1]`), and the
last element appended to `current_row` so far, produce the remaining cells of
`current_row`. `insertions = previous_row[j+1] + 1`,
`deletions = current_row[j] + 1`, `substitutions = previous_row[j] + (c1 != c2)`. -/
def levRowAux (c1 : Char) : Str → List Nat → Nat → List Nat
  | c2 :: s2, p0 :: p1 :: prest, left =>
      let cell := min (min (p1 + 1) (left + 1)) (p0 + if c1 ≠ c2 then 1 else 0)
      cell :: levRowAux c1 s2 (p1 :: prest) cell
  | _, _, _ => []

/-- Outer loop of `_levenshtein_distance`: `for i, c1 in enumerate(s1)`,
building `current_row = [i + 1] ++ inner-loop cells` and carrying it as the
next `previous_row`. The counter argument holds the number of characters of
`s1` already consumed. -/
def levRows (s2 : Str) : Str → List Nat → Nat → List Nat
  | [], prev, _ => prev
  | c1 :: s1, prev, i =>
      levRows s2 s1 ((i + 1) :: levRowAux c1 s2 prev (i + 1)) (i + 1)

/-- Body of `_levenshtein_distance` after the initial swap: early return
`len(s1)` when `s2` is empty, otherwise run the dynamic program starting from
`previous_row = list(range(len(s2) + 1))` and return `previous_row[-1]`. -/
def levCore (s1 s2 : Str) : Nat :=
  if s2.length = 0 then s1.length
  else (levRows s2 s1 (List.range (s2.length + 1)) 0).getLastD 0

/-- Model of `_levenshtein_distance`: swap the arguments when the first is
shorter, then run the row-based dynamic program. -/
def levenshtein_distance (s1 s2 : Str) : Nat :=
  if s1.length < s2.length then levCore s2 s1 else levCore s1 s2

/-- Value computed by a row cell of the dynamic program: `P` is the reversal
of the consumed prefix of `s1`, `v` the prefix of `s2` for this cell. -/
def levP (P v : Str) : Nat := levenshtein P v.reverse

/-! ### Definitions: phonology data (`load_phonology`) -/

/-- The 20 official Fidakune phonemes hardcoded by `load_phonology`
(`self.valid_phonemes`). -/
def valid_phonemes : List Char :=
  ['p', 'b', 't', 'd', 'k', 'g', 'm', 'n', 'f', 's', 'h', 'l', 'r', 'w', 'j',
   'a', 'e', 'i', 'o', 'u']

/-- Consonant subset (`self.consonants`). -/
def consonants : List Char :=
  ['p', 'b', 't', 'd', 'k', 'g', 'm', 'n', 'f', 's', 'h', 'l', 'r', 'w', 'j']

/-- Vowel subset (`self.vowels`). -/
def vowels : List Char := ['a', 'e', 'i', 'o', 'u']

/-- Permitted consonant clusters (`self.permitted_clusters`). -/
def permitted_clusters : List Str :=
  [['s', 't'], ['p', 'l'], ['p', 'r'], ['t', 'r'], ['s', 'p']]

def isConsonant (c : Char) : Bool := c ∈ consonants

def isVowel (c : Char) : Bool := c ∈ vowels

/-! ### Definitions: statuses, messages and outcomes -/

/-- Per-check status strings used by the analyzer. -/
inductive Status where
  | PENDING
  | PASS
  | WARNING
  | FAIL
  | ERROR
deriving DecidableEq, Repr, Fintype

/-- Overall recommendation strings. -/
inductive Recommendation where
  | PENDING
  | APPROVE
  | REVIEW
  | REJECT
  | ERROR
deriving DecidableEq, Repr

/-- Critical pre-gate errors raised by `analyze_proposal` via
`_set_critical_error`, carrying the data interpolated into the message. -/
inductive CritErr where
  | noWord
  | wordTooLong (length : Nat)
  | invalidChars
deriving DecidableEq, Repr

/-- Failure messages of `_validate_hyphen_usage`, one constructor per
distinct message string of the source. -/
inductive HyphenErr where
  | multipleConsecutive
  | atBoundary
  | lessThanTwoParts
  | emptyPart
  | invalidPart (part : Str)
deriving DecidableEq, Repr

/-- Failure messages of `_validate_consonant_clusters`. -/
inductive ClusterErr where
  | tooLong (cluster : Str)
  | notPermitted (cluster : Str)
  | atWordBeginning (cluster : Str)
deriving DecidableEq, Repr

/-- Messages appended by the analyzer, one constructor per format string of
the source, carrying exactly the data interpolated into it. -/
inductive Msg where
  | criticalError (e : CritErr)
  | failInvalidPhonemes (chars : Str)
  | phonemeInventory
  | passPhonemesValid
  | failHyphen (e : HyphenErr)
  | passHyphen
  | failSyllable (part : Str)
  | passSyllable
  | warnCluster (e : Option ClusterErr)
  | failCluster (e : Option ClusterErr)
  | passCluster
  | failWordExists (word defn : Str)
  | passWordNew (word : Str)
  | failMissingRoot (root : Str)
  | passRootExists (root dom defn : Str)
  | warnDomainInconsistent (dom : Str) (rootDomains : List Str)
  | passDomainConsistent (dom : Str) (rootDomains : List Str)
  | passDomainCompatible (dom : Str) (rootDomains : List Str)
  | warnVerySimilar (word defn : Str)
  | warnSimilarHeader
  | similarItem (word defn : Str) (similarity : ℚ)
  | passNoSignificantConflicts
  | passNoConflicts
  | failInvalidDomain (dom : Str)
  | passValidDomain (dom : Str)
  | failNoDefinition
  | passDefinition
  | warnNoJustification
  | passJustification
deriving DecidableEq, Repr

/-- One section of `analysis_results`: a status and its message list. -/
structure CheckOutcome where
  status : Status
  messages : List Msg
deriving DecidableEq, Repr

/-- The full `analysis_results` dictionary. -/
structure AnalysisResults where
  phonotactics : CheckOutcome
  lexicon : CheckOutcome
  homophones : CheckOutcome
  semantics : CheckOutcome
  recommendation : Recommendation
deriving DecidableEq, Repr

/-! ### Definitions: lexicon store (`load_lexicon`) -/

/-- One lexicon entry; only the fields the analyzer reads are modelled, each
optional because the source reads them with `entry.get(key, default)`. -/
structure LexEntry where
  definition : Option Str
  domain : Option Str
deriving DecidableEq, Repr

/-- The lexicon dictionary `self.lexicon` (keys are unique in a Python
dict, so association-list lookup models dict lookup). -/
abbrev Lexicon := List (Str × LexEntry)

def lexLookup (lex : Lexicon) (w : Str) : Option LexEntry :=
  (lex.find? fun e => e.1 == w).map (·.2)

/-- Default string used by the source's `entry.get(key, 'unknown')` reads. -/
def unknownStr : Str := "unknown".data

/-- The set `self.valid_domains`, collected by `load_lexicon` from entries
whose `domain` value is truthy (present and non-empty). -/
def validDomains (lex : Lexicon) : List Str :=
  lex.filterMap fun e =>
    match e.2.domain with
    | some d => if d = [] then none else some d
    | none => none

/-! ### Definitions: phonotactic analysis -/

/-- Shared normalization `word.replace('-', '').lower()`. -/
def clean_word (word : Str) : Str :=
  (word.filter fun c => c ≠ '-').map Char.toLower

/-- Inner `while i < len(chars) and chars[i] in C` coda loop of
`_is_valid_syllable_sequence`, returning the unconsumed suffix. Each branch
mirrors one branch of the loop body (consume the final consonant; stop in
front of a vowel; stop in front of a permitted cluster; consume one
consonant of a non-permitted pair; skip past a non-phoneme character and
re-test the loop condition). -/
def codaLoop : Str → Str
  | [] => []
  | c :: rest =>
    if isConsonant c then
      match rest with
      | [] => []
      | d :: rest2 =>
        if isVowel d then c :: d :: rest2
        else if isConsonant d then
          if [c, d] ∈ permitted_clusters then c :: d :: rest2 else d :: rest2
        else codaLoop (d :: rest2)
    else c :: rest

/-- Outer `while i < len(chars)` loop of `_is_valid_syllable_sequence`,
written with the onset analysis (optional permitted two-consonant cluster or
single consonant), the mandatory vowel test, and the coda loop case-expanded
over the shape of the remaining characters. -/
def syllableLoop : Str → Bool
  | [] => true
  | [c1] =>
    if isConsonant c1 then false
    else if isVowel c1 then true
    else false
  | c1 :: c2 :: rest =>
    if isConsonant c1 ∧ isConsonant c2 then
      if [c1, c2] ∈ permitted_clusters then
        match rest with
        | [] => false
        | v :: rest2 =>
          if isVowel v then syllableLoop (codaLoop rest2) else false
      else false
    else if isConsonant c1 then
      if isVowel c2 then syllableLoop (codaLoop rest) else false
    else
      if isVowel c1 then syllableLoop (codaLoop (c2 :: rest)) else false
termination_by l => l.length
decreasing_by
  all_goals
    have hcoda : ∀ m : Str, (codaLoop m).length ≤ m.length := by
      intro m
      induction m with
      | nil => simp [codaLoop]
      | cons c rest ihm =>
        cases rest with
        | nil => rw [codaLoop]; split <;> simp
        | cons d rest2 =>
          rw [codaLoop]
          split
          · split
            · simp
            · split
              · split <;> simp
              · refine le_trans ihm ?_
                simp
          · simp
  all_goals simp only [List.length_cons]
  · have := hcoda rest2; omega
  · have := hcoda rest; omega
  · have := hcoda (c2 :: rest); simp only [List.length_cons] at this; omega

/-- Model of `_is_valid_syllable_sequence`. -/
def is_valid_syllable_sequence (word_part : Str) : Bool :=
  if word_part = [] then false
  else syllableLoop (word_part.map Char.toLower)

/-- Substring test `'--' in word`. -/
def containsDoubleHyphen : Str → Bool
  | '-' :: '-' :: _ => true
  | _ :: rest => containsDoubleHyphen rest
  | [] => false

/-- Per-part loop of `_validate_hyphen_usage`, returning the first error. -/
def hyphenPartsCheck : List Str → Option HyphenErr
  | [] => none
  | p :: ps =>
    if p = [] then some HyphenErr.emptyPart
    else if ¬ is_valid_syllable_sequence p then some (HyphenErr.invalidPart p)
    else hyphenPartsCheck ps

/-- Model of `_validate_hyphen_usage`; `none` models `(True, "")` and
`some e` models `(False, message)`. -/
def validate_hyphen_usage (word : Str) : Option HyphenErr :=
  if containsDoubleHyphen word then some HyphenErr.multipleConsecutive
  else if word.head? = some '-' ∨ word.getLast? = some '-' then
    some HyphenErr.atBoundary
  else
    let parts := word.splitOn '-'
    if parts.length < 2 then some HyphenErr.lessThanTwoParts
    else hyphenPartsCheck parts

/-- Per-part loop of `_validate_syllable_structure`, returning the first
part with invalid syllable structure. -/
def firstSylErr : List Str → Option Str
  | [] => none
  | p :: ps =>
    if ¬ is_valid_syllable_sequence (p.map Char.toLower) then some p
    else firstSylErr ps

/-- Model of `_validate_syllable_structure`; `none` models `(True, "")`. -/
def validate_syllable_structure (word : Str) : Option Str :=
  firstSylErr (word.splitOn '-')

/-- Result triple of `_validate_consonant_clusters`:
`(is_valid, message, is_warning)`. -/
structure ClusterResult where
  is_valid : Bool
  err : Option ClusterErr
  is_warning : Bool
deriving DecidableEq, Repr

/-- Scan of one (lowercased) part by `_validate_consonant_clusters`: find
each maximal consonant run, and reject runs longer than two, pairs outside
the permitted set, and a permitted pair sitting at the very beginning of the
first part. The Boolean argument tracks `cluster_start == 0`. -/
def clusterScanPart (isFirstPart : Bool) : Bool → Str → Option ClusterErr
  | _, [] => none
  | atStart, c :: rest =>
    if hc : isConsonant c then
      let run := (c :: rest).takeWhile isConsonant
      let rest2 := (c :: rest).dropWhile isConsonant
      if run.length > 1 then
        if run.length > 2 then some (ClusterErr.tooLong run)
        else if run ∉ permitted_clusters then some (ClusterErr.notPermitted run)
        else if atStart ∧ isFirstPart then some (ClusterErr.atWordBeginning run)
        else clusterScanPart isFirstPart false rest2
      else clusterScanPart isFirstPart false rest
    else clusterScanPart isFirstPart false rest
termination_by _ l => l.length
decreasing_by
  all_goals simp only [List.length_cons]
  · rw [List.dropWhile_cons, if_pos hc]
    have := (List.dropWhile_sublist (l := rest) (p := isConsonant)).length_le
    omega
  · omega
  · omega

/-- Loop of `_validate_consonant_clusters` over the hyphen-split parts; only
`part_idx == 0` is distinguished by the word-beginning rule. -/
def clusterErrParts : Bool → List Str → Option ClusterErr
  | _, [] => none
  | isFirstPart, p :: ps =>
    match clusterScanPart isFirstPart true (p.map Char.toLower) with
    | some e => some e
    | none => clusterErrParts false ps

/-- Model of `_validate_consonant_clusters`. Every return site of the source
carries `False` as its `is_warning` component. -/
def validate_consonant_clusters (word : Str) : ClusterResult :=
  match clusterErrParts true (word.splitOn '-') with
  | some e => ⟨false, some e, false⟩
  | none => ⟨true, none, false⟩

/-- Model of `_analyze_phonotactics_basic`: phoneme inventory check, hyphen
check (for hyphenated words), syllable-structure check, consonant-cluster
check, accumulating a status (the warning upgrade applies only to `PASS`)
and messages in source order. -/
def analyze_phonotactics_basic (word : Str) : CheckOutcome :=
  let invalid_phonemes := (clean_word word).filter fun c => c ∉ valid_phonemes
  let st0 : Status := if invalid_phonemes ≠ [] then Status.FAIL else Status.PASS
  let ms0 : List Msg :=
    if invalid_phonemes ≠ [] then
      [Msg.failInvalidPhonemes invalid_phonemes.dedup, Msg.phonemeInventory]
    else [Msg.passPhonemesValid]
  let step1 : Status × List Msg :=
    if '-' ∈ word then
      match validate_hyphen_usage word with
      | some e => (Status.FAIL, ms0 ++ [Msg.failHyphen e])
      | none => (st0, ms0 ++ [Msg.passHyphen])
    else (st0, ms0)
  let step2 : Status × List Msg :=
    match validate_syllable_structure word with
    | some part => (Status.FAIL, step1.2 ++ [Msg.failSyllable part])
    | none => (step1.1, step1.2 ++ [Msg.passSyllable])
  let cr := validate_consonant_clusters word
  let step3 : Status × List Msg :=
    if cr.is_valid = false then
      if cr.is_warning then
        ((if step2.1 = Status.PASS then Status.WARNING else step2.1),
          step2.2 ++ [Msg.warnCluster cr.err])
      else (Status.FAIL, step2.2 ++ [Msg.failCluster cr.err])
    else (step2.1, step2.2 ++ [Msg.passCluster])
  ⟨step3.1, step3.2⟩

/-! ### Definitions: lexicon analysis -/

/-- Root loop of `_verify_compound_roots`: the first root missing from the
lexicon is returned as `Sum.inl root` (modelling
`(False, "Root word '{root}' not found in lexicon", [])`), otherwise
`Sum.inr` carries the per-root success messages in order. -/
def verifyRootsLoop (lex : Lexicon) : List Str → Sum Str (List Msg)
  | [] => Sum.inr []
  | r :: rs =>
    match lexLookup lex r with
    | none => Sum.inl r
    | some e =>
      match verifyRootsLoop lex rs with
      | Sum.inl m => Sum.inl m
      | Sum.inr msgs =>
        Sum.inr (Msg.passRootExists r (e.domain.getD unknownStr)
          (e.definition.getD unknownStr) :: msgs)

/-- Model of `_verify_compound_roots`. -/
def verify_compound_roots (lex : Lexicon) (compound_word : Str) : Sum Str (List Msg) :=
  verifyRootsLoop lex (compound_word.splitOn '-')

/-- Hardcoded `domain_combinations` table of
`_check_compound_domain_consistency`. -/
def domain_combinations : List (Str × List Str) :=
  [("Emotion".data, ["Body".data, "Nature".data, "Quality".data]),
   ("Action".data, ["Body".data, "Object".data, "Nature".data]),
   ("Quality".data, ["Nature".data, "Object".data, "Body".data])]

/-- Model of `_check_compound_domain_consistency`: the Boolean is the
consistency verdict, the message the one appended by the caller. -/
def check_compound_domain_consistency (lex : Lexicon)
    (compound_word proposed_domain : Str) : Bool × Msg :=
  let roots := compound_word.splitOn '-'
  let root_domains := roots.filterMap fun r =>
    (lexLookup lex r).map fun e => e.domain.getD unknownStr
  if proposed_domain ∈ root_domains then
    (true, Msg.passDomainConsistent proposed_domain root_domains)
  else
    match domain_combinations.find? fun p => p.1 == proposed_domain with
    | some pr =>
      if root_domains.any fun rd => rd ∈ pr.2 then
        (true, Msg.passDomainCompatible proposed_domain root_domains)
      else (false, Msg.warnDomainInconsistent proposed_domain root_domains)
    | none => (false, Msg.warnDomainInconsistent proposed_domain root_domains)

/-- Model of `_analyze_lexicon_basic`: duplicate check, root-existence check
for hyphenated words, then (only when the status is not already `FAIL`)
the domain-consistency heuristic, whose warning upgrade applies only to
`PASS`. -/
def analyze_lexicon_basic (lex : Lexicon) (word domain : Str) : CheckOutcome :=
  let step0 : Status × List Msg :=
    match lexLookup lex word with
    | some entry =>
      (Status.FAIL, [Msg.failWordExists word (entry.definition.getD unknownStr)])
    | none => (Status.PASS, [Msg.passWordNew word])
  let step1 : Status × List Msg :=
    if '-' ∈ word then
      match verify_compound_roots lex word with
      | Sum.inl root => (Status.FAIL, step0.2 ++ [Msg.failMissingRoot root])
      | Sum.inr succ => (step0.1, step0.2 ++ succ)
    else (step0.1, step0.2)
  let step2 : Status × List Msg :=
    if '-' ∈ word ∧ step1.1 ≠ Status.FAIL then
      match check_compound_domain_consistency lex word domain with
      | (true, m) => (step1.1, step1.2 ++ [m])
      | (false, m) =>
        ((if step1.1 = Status.PASS then Status.WARNING else step1.1),
          step1.2 ++ [m])
    else (step1.1, step1.2)
  ⟨step2.1, step2.2⟩

/-! ### Definitions: homophone analysis -/

/-- Character map of `_generate_pronunciation`. -/
def pronunciationMap (c : Char) : Char :=
  if c = 'r' then 'ɾ' else if c = 'j' then 'y' else c

/-- Model of `_generate_pronunciation`. -/
def generate_pronunciation (word : Str) : Str :=
  (clean_word word).map pronunciationMap

/-- Model of `_calculate_pronunciation_similarity`, with Python floats
replaced by exact rationals. -/
def calculate_pronunciation_similarity (pron1 pron2 : Str) : ℚ :=
  if pron1 = [] ∨ pron2 = [] then 0
  else
    let distance := levenshtein_distance pron1 pron2
    let max_len := max pron1.length pron2.length
    if max_len = 0 then 1
    else
      let similarity : ℚ := 1 - (distance : ℚ) / (max_len : ℚ)
      let similarity :=
        if ((pron1.length : ℤ) - (pron2.length : ℤ)).natAbs ≤ 1 then
          similarity + 1 / 10
        else similarity
      min similarity 1

/-- One element of the `similar_words` list of
`_find_similar_pronunciations`. -/
structure SimilarWord where
  word : Str
  definition : Str
  pronunciation : Str
  similarity : ℚ
deriving DecidableEq, Repr

/-- Model of `_find_similar_pronunciations`: score every other stored word,
keep those above the 0.6 threshold, and stable-sort them by descending
similarity (Python's stable `sort(key=..., reverse=True)`). -/
def find_similar_pronunciations (lex : Lexicon)
    (proposed_word proposed_pronunciation : Str) : List SimilarWord :=
  let similar_words := lex.filterMap fun we =>
    if we.1 == proposed_word then none
    else
      let existing_pronunciation := generate_pronunciation we.1
      let similarity := calculate_pronunciation_similarity
        proposed_pronunciation existing_pronunciation
      if similarity > 3 / 5 then
        some ⟨we.1, we.2.definition.getD unknownStr,
          existing_pronunciation, similarity⟩
      else none
  similar_words.mergeSort fun a b => b.similarity ≤ a.similarity

/-- Model of `_analyze_homophones`: a single above-0.9 match warns as a
likely homophone; any other non-empty match list warns with the top three;
an empty list passes. -/
def analyze_homophones (lex : Lexicon) (word : Str) : CheckOutcome :=
  let proposed_pronunciation := generate_pronunciation word
  let similar_words := find_similar_pronunciations lex word proposed_pronunciation
  match similar_words with
  | [] => ⟨Status.PASS, [Msg.passNoConflicts]⟩
  | s0 :: rest =>
    if (s0 :: rest).length = 1 ∧ s0.similarity > 9 / 10 then
      ⟨Status.WARNING, [Msg.warnVerySimilar s0.word s0.definition]⟩
    else if (s0 :: rest).length > 0 then
      ⟨Status.WARNING, Msg.warnSimilarHeader ::
        ((s0 :: rest).take 3).map fun s =>
          Msg.similarItem s.word s.definition s.similarity⟩
    else ⟨Status.PASS, [Msg.passNoSignificantConflicts]⟩

/-! ### Definitions: semantic analysis and recommendation -/

/-- Model of `_analyze_semantics_basic`. Note the source's final step
assigns `status = 'WARNING'` unconditionally when the justification is
empty, overwriting any earlier `FAIL`. -/
def analyze_semantics_basic (lex : Lexicon)
    (word definition domain justification : Str) : CheckOutcome :=
  let _ := word
  let step0 : Status × List Msg :=
    if domain ∉ validDomains lex then
      (Status.FAIL, [Msg.failInvalidDomain domain])
    else (Status.PASS, [Msg.passValidDomain domain])
  let step1 : Status × List Msg :=
    if definition = [] then (Status.FAIL, step0.2 ++ [Msg.failNoDefinition])
    else (step0.1, step0.2 ++ [Msg.passDefinition])
  let step2 : Status × List Msg :=
    if justification = [] then
      (Status.WARNING, step1.2 ++ [Msg.warnNoJustification])
    else (step1.1, step1.2 ++ [Msg.passJustification])
  ⟨step2.1, step2.2⟩

/-- Model of `_generate_recommendation` (the later, overriding definition in
the source file): count `FAIL`/`ERROR`/`WARNING` statuses over the four
check sections and pick the recommendation. -/
def generate_recommendation (phonotactics lexicon homophones semantics : Status) :
    Recommendation :=
  let sts := [phonotactics, lexicon, homophones, semantics]
  let fail_count := sts.countP fun s => s = Status.FAIL
  let error_count := sts.countP fun s => s = Status.ERROR
  let warning_count := sts.countP fun s => s = Status.WARNING
  if error_count > 0 then Recommendation.ERROR
  else if fail_count > 0 then Recommendation.REJECT
  else if warning_count > 2 then Recommendation.REVIEW
  else if warning_count > 0 then Recommendation.REVIEW
  else Recommendation.APPROVE

/-- Recommendation as the specification's contract words it: Error if any
check is Error, else Reject if any is Fail, else Review if any is Warning,
else Approve. Stated separately from the source model so the two can be
compared. -/
def specRecommendation (p l h s : Status) : Recommendation :=
  if p = Status.ERROR ∨ l = Status.ERROR ∨ h = Status.ERROR ∨ s = Status.ERROR then
    Recommendation.ERROR
  else if p = Status.FAIL ∨ l = Status.FAIL ∨ h = Status.FAIL ∨ s = Status.FAIL then
    Recommendation.REJECT
  else if p = Status.WARNING ∨ l = Status.WARNING ∨ h = Status.WARNING ∨
      s = Status.WARNING then
    Recommendation.REVIEW
  else Recommendation.APPROVE

/-! ### Definitions: pipeline entry point -/

/-- Characters for which Python's `str.isspace()` is true — exactly the set
that `str.strip()` with no argument removes: the ASCII whitespace characters
U+0009..U+000D and U+0020, the separators U+001C..U+001F, next line U+0085,
no-break space U+00A0, and the Unicode space characters U+1680,
U+2000..U+200A, U+2028, U+2029, U+202F, U+205F and U+3000. -/
def pythonSpace (c : Char) : Bool :=
  c ∈ (['\t', '\n', '\x0b', '\x0c', '\r',
    '\x1c', '\x1d', '\x1e', '\x1f', ' ', '\x85', '\xa0',
    '\u1680', '\u2000', '\u2001', '\u2002', '\u2003', '\u2004',
    '\u2005', '\u2006', '\u2007', '\u2008', '\u2009', '\u200a',
    '\u2028', '\u2029', '\u202f', '\u205f', '\u3000'] : List Char)

/-- Model of `str.strip()`. -/
def pyStrip (s : Str) : Str :=
  ((s.dropWhile pythonSpace).reverse.dropWhile pythonSpace).reverse

def isWordChar (c : Char) : Bool := c.isAlpha ∨ c = '-'

/-- Model of `re.match(r'^[a-zA-Z-]+$', word)` on an already-stripped word
(the `$`-before-trailing-newline quirk of Python regexes cannot fire after
`strip()`). -/
def matchesWordRegex (w : Str) : Bool := !w.isEmpty && w.all isWordChar

/-- The four extracted field values handed to `analyze_proposal`. -/
structure ProposalFields where
  word : Str
  definition : Str
  domain : Str
  justification : Str
deriving DecidableEq, Repr

/-- Model of `_set_critical_error`: every section is set to `ERROR` with the
single critical message, and the recommendation to `ERROR`. -/
def set_critical_error (e : CritErr) : AnalysisResults :=
  ⟨⟨Status.ERROR, [Msg.criticalError e]⟩, ⟨Status.ERROR, [Msg.criticalError e]⟩,
    ⟨Status.ERROR, [Msg.criticalError e]⟩, ⟨Status.ERROR, [Msg.criticalError e]⟩,
    Recommendation.ERROR⟩

/-- Model of `analyze_proposal`: strip the four fields, run the structural
gate on the word (non-empty, at most 50 characters, letters and hyphens
only), and on success run the four checks and the recommendation. -/
def analyze_proposal (lex : Lexicon) (fields : ProposalFields) : AnalysisResults :=
  let word := pyStrip fields.word
  let definition := pyStrip fields.definition
  let domain := pyStrip fields.domain
  let justification := pyStrip fields.justification
  if word = [] then set_critical_error CritErr.noWord
  else if word.length > 50 then set_critical_error (CritErr.wordTooLong word.length)
  else if ¬ matchesWordRegex word then set_critical_error CritErr.invalidChars
  else
    let p := analyze_phonotactics_basic word
    let l := analyze_lexicon_basic lex word domain
    let h := analyze_homophones lex word
    let s := analyze_semantics_basic lex word definition domain justification
    ⟨p, l, h, s, generate_recommendation p.status l.status h.status s.status⟩

/-- Domain-consistency messages (the ones only the third lexicon sub-check
can produce). -/
def isDomainMsg : Msg → Bool
  | Msg.warnDomainInconsistent _ _ => true
  | Msg.passDomainConsistent _ _ => true
  | Msg.passDomainCompatible _ _ => true
  | _ => false

/-! ### Theorems: edit distance -/

theorem levenshtein_nil_left (ys : Str) : levenshtein [] ys = ys.length := by
  cases ys <;> simp [levenshtein]

theorem levenshtein_nil_right (xs : Str) : levenshtein xs [] = xs.length := by
  cases xs <;> simp [levenshtein]

theorem levenshtein_cons_cons (x y : Char) (xs ys : Str) :
    levenshtein (x :: xs) (y :: ys) =
      min (min (levenshtein (x :: xs) ys + 1) (levenshtein xs (y :: ys) + 1))
        (levenshtein xs ys + if x = y then 0 else 1) := by
  simp [levenshtein]

theorem levenshtein_self : ∀ xs : Str, levenshtein xs xs = 0
  | [] => by simp [levenshtein_nil_left]
  | x :: xs => by
    have ih := levenshtein_self xs
    rw [levenshtein_cons_cons, ih, if_pos rfl]
    omega

theorem levenshtein_comm : ∀ xs ys : Str, levenshtein xs ys = levenshtein ys xs
  | [], ys => by simp [levenshtein_nil_left, levenshtein_nil_right]
  | x :: xs, [] => by simp [levenshtein_nil_left, levenshtein_nil_right]
  | x :: xs, y :: ys => by
    rw [levenshtein_cons_cons, levenshtein_cons_cons,
      levenshtein_comm (x :: xs) ys, levenshtein_comm xs (y :: ys),
      levenshtein_comm xs ys]
    have hc : (if x = y then (0 : Nat) else 1) = if y = x then 0 else 1 := by
      by_cases h : x = y
      · subst h; simp
      · rw [if_neg h, if_neg fun hyx => h hyx.symm]
    rw [hc]
    omega
termination_by xs ys => xs.length + ys.length
decreasing_by all_goals (simp only [List.length_cons]; omega)

theorem levenshtein_le_max : ∀ xs ys : Str,
    levenshtein xs ys ≤ max xs.length ys.length
  | [], ys => by simp [levenshtein_nil_left]
  | x :: xs, [] => by simp [levenshtein_nil_right]
  | x :: xs, y :: ys => by
    have ih := levenshtein_le_max xs ys
    rw [levenshtein_cons_cons]
    have hc : (if x = y then (0 : Nat) else 1) ≤ 1 := by split <;> omega
    simp only [List.length_cons]
    omega
termination_by xs ys => xs.length + ys.length
decreasing_by all_goals (simp only [List.length_cons]; omega)

/-- Recurrence for the edit distance when one character is appended at the
end of each string. -/
theorem levenshtein_snoc_snoc : ∀ (xs ys : Str) (x y : Char),
    levenshtein (xs ++ [x]) (ys ++ [y]) =
      min (min (levenshtein (xs ++ [x]) ys + 1) (levenshtein xs (ys ++ [y]) + 1))
        (levenshtein xs ys + if x = y then 0 else 1)
  | [], [], x, y => by
    simp only [List.nil_append]
    rw [levenshtein_cons_cons]
  | [], y' :: ys, x, y => by
    have ih := levenshtein_snoc_snoc [] ys x y
    simp only [List.nil_append, List.cons_append] at ih ⊢
    rw [levenshtein_cons_cons, levenshtein_cons_cons, ih]
    simp only [levenshtein_nil_left, List.length_append, List.length_cons,
      List.length_nil]
    omega
  | x' :: xs, [], x, y => by
    have ih := levenshtein_snoc_snoc xs [] x y
    simp only [List.nil_append, List.cons_append] at ih ⊢
    rw [levenshtein_cons_cons, levenshtein_cons_cons, ih]
    simp only [levenshtein_nil_right, List.length_append, List.length_cons,
      List.length_nil]
    omega
  | x' :: xs, y' :: ys, x, y => by
    have ih1 := levenshtein_snoc_snoc (x' :: xs) ys x y
    have ih2 := levenshtein_snoc_snoc xs (y' :: ys) x y
    have ih3 := levenshtein_snoc_snoc xs ys x y
    simp only [List.cons_append] at ih1 ih2 ih3 ⊢
    rw [levenshtein_cons_cons x' y' (xs ++ [x]) (ys ++ [y]),
      levenshtein_cons_cons x' y' (xs ++ [x]) ys,
      levenshtein_cons_cons x' y' xs (ys ++ [y]),
      levenshtein_cons_cons x' y' xs ys,
      ih1, ih2, ih3]
    have h : ∀ x y z c : ℕ, min (min x y) z + c = min (min (x + c) (y + c)) (z + c) := by
      intro x y z c; omega
    simp only [h, Nat.add_comm, Nat.add_left_comm, Nat.add_assoc]
    ac_rfl
termination_by xs ys x y => xs.length + ys.length
decreasing_by all_goals (simp only [List.length_cons]; omega)

/-- Reversing both strings preserves the edit distance. -/
theorem levenshtein_reverse : ∀ xs ys : Str,
    levenshtein xs.reverse ys.reverse = levenshtein xs ys
  | [], ys => by
    simp [levenshtein_nil_left]
  | x :: xs, [] => by
    simp [levenshtein_nil_right]
  | x :: xs, y :: ys => by
    have ih1 := levenshtein_reverse (x :: xs) ys
    have ih2 := levenshtein_reverse xs (y :: ys)
    have ih3 := levenshtein_reverse xs ys
    rw [List.reverse_cons, List.reverse_cons, levenshtein_snoc_snoc]
    rw [List.reverse_cons] at ih1
    rw [List.reverse_cons] at ih2
    rw [ih1, ih2, ih3, levenshtein_cons_cons]
termination_by xs ys => xs.length + ys.length
decreasing_by all_goals (simp only [List.length_cons]; omega)

theorem levP_nil (P : Str) : levP P [] = P.length := by
  simp [levP, levenshtein_nil_right]

theorem levP_snoc (c1 c2 : Char) (P q : Str) :
    levP (c1 :: P) (q ++ [c2]) =
      min (min (levP (c1 :: P) q + 1) (levP P (q ++ [c2]) + 1))
        (levP P q + if c1 = c2 then 0 else 1) := by
  simp only [levP, List.reverse_append, List.reverse_cons, List.reverse_nil,
    List.nil_append, List.singleton_append]
  rw [levenshtein_cons_cons]

theorem inits_eq_cons_tail (l : Str) : l.inits = [] :: l.inits.tail := by
  cases l <;> simp [List.inits]

theorem levRowAux_spec (c1 : Char) (P : Str) : ∀ (t q : Str),
    levRowAux c1 t (t.inits.map fun u => levP P (q ++ u)) (levP (c1 :: P) q)
      = t.inits.tail.map fun u => levP (c1 :: P) (q ++ u)
  | [], q => by simp [levRowAux]
  | c2 :: t, q => by
    have hcell : min (min (levP P (q ++ [c2]) + 1) (levP (c1 :: P) q + 1))
        (levP P q + if c1 ≠ c2 then 1 else 0)
        = levP (c1 :: P) (q ++ [c2]) := by
      rw [levP_snoc]
      have hc : (if c1 ≠ c2 then (1 : Nat) else 0) = if c1 = c2 then 0 else 1 := by
        by_cases h : c1 = c2 <;> simp [h]
      rw [hc]
      omega
    have ih := levRowAux_spec c1 P t (q ++ [c2])
    rw [inits_eq_cons_tail t] at ih
    simp only [List.map_cons, List.tail_cons, List.append_nil, List.append_assoc,
      List.cons_append, List.nil_append] at ih
    rw [List.inits_cons, inits_eq_cons_tail t]
    simp only [List.map_cons, List.map_map, List.tail_cons, Function.comp_def,
      List.append_nil, levRowAux]
    rw [hcell]
    congr 1

theorem levRows_spec (s2 : Str) : ∀ (s1 P : Str),
    levRows s2 s1 (s2.inits.map fun u => levP P u) P.length
      = s2.inits.map fun u => levP (s1.reverse ++ P) u
  | [], P => by simp [levRows]
  | c1 :: s1, P => by
    rw [levRows]
    have hrow : (P.length + 1) :: levRowAux c1 s2 (s2.inits.map fun u => levP P u)
        (P.length + 1) = s2.inits.map fun u => levP (c1 :: P) u := by
      have haux := levRowAux_spec c1 P s2 []
      simp only [List.nil_append] at haux
      have hl : levP (c1 :: P) [] = P.length + 1 := by
        rw [levP_nil]; rfl
      rw [← hl, haux, inits_eq_cons_tail s2]
      simp
    rw [hrow]
    have ih := levRows_spec s2 s1 (c1 :: P)
    simp only [List.length_cons] at ih
    rw [ih]
    have harr : s1.reverse ++ (c1 :: P) = (c1 :: s1).reverse ++ P := by
      simp [List.reverse_cons, List.append_assoc]
    rw [harr]

theorem inits_map_length : ∀ l : Str, l.inits.map List.length = List.range (l.length + 1)
  | [] => by simp [List.inits, List.range_succ]
  | c :: l => by
    rw [List.inits_cons, List.range_succ_eq_map]
    simp only [List.map_cons, List.length_nil, List.map_map, List.length_cons]
    rw [← inits_map_length l]
    simp [Function.comp_def]

theorem getLastD_inits_map (f : Str → Nat) : ∀ (l : Str) (d : Nat),
    (l.inits.map f).getLastD d = f l
  | [], d => by simp [List.inits]
  | c :: l, d => by
    rw [List.inits_cons]
    simp only [List.map_cons, List.map_map]
    rw [List.getLastD_cons]
    have ih := getLastD_inits_map (fun u => f (c :: u)) l (f [])
    simp only [Function.comp_def]
    exact ih

/-- The dynamic program computes the classic Levenshtein distance. -/
theorem levCore_eq (s1 s2 : Str) : levCore s1 s2 = levenshtein s1 s2 := by
  rw [levCore]
  split
  · rename_i h
    rw [List.length_eq_zero] at h
    subst h
    rw [levenshtein_nil_right]
  · have hinit : List.range (s2.length + 1) = s2.inits.map fun u => levP [] u := by
      rw [← inits_map_length s2]
      apply List.map_congr_left
      intro u _
      simp [levP, levenshtein_nil_left]
    rw [hinit]
    have hspec := levRows_spec s2 s1 []
    simp only [List.length_nil, List.append_nil] at hspec
    rw [hspec, getLastD_inits_map]
    simp only [levP]
    rw [levenshtein_reverse]

/-- Model of `_levenshtein_distance` agrees with the classic edit distance. -/
theorem levenshtein_distance_eq (s1 s2 : Str) :
    levenshtein_distance s1 s2 = levenshtein s1 s2 := by
  rw [levenshtein_distance]
  split
  · rw [levCore_eq, levenshtein_comm]
  · rw [levCore_eq]

/-! ### Theorems: homophone similarity (claims C4, C5, C6) -/

/-- C4: for every pair of non-empty pronunciation strings `a`, `b`, the
similarity score equals
`min(1, (1 − levenshtein(a,b)/max(len a, len b)) + (0.1 if the lengths
differ by at most 1 else 0))` and always lies in `[0, 1]`; when either
string is empty the score is `0`. -/
theorem similarity_formula (a b : Str) :
    (a ≠ [] → b ≠ [] →
      calculate_pronunciation_similarity a b =
        min 1 ((1 - (levenshtein a b : ℚ) / ((max a.length b.length : ℕ) : ℚ)) +
          (if ((a.length : ℤ) - (b.length : ℤ)).natAbs ≤ 1 then 1 / 10 else 0)) ∧
      0 ≤ calculate_pronunciation_similarity a b ∧
      calculate_pronunciation_similarity a b ≤ 1) ∧
    ((a = [] ∨ b = []) → calculate_pronunciation_similarity a b = 0) := by
  constructor
  · intro ha hb
    have hor : ¬(a = [] ∨ b = []) := by simp [ha, hb]
    have hla : 0 < a.length := List.length_pos.mpr ha
    have hmax : 0 < max a.length b.length := by omega
    have hm : (0 : ℚ) < ((max a.length b.length : ℕ) : ℚ) := by
      exact_mod_cast hmax
    have hdm : ((levenshtein a b : ℕ) : ℚ) ≤ ((max a.length b.length : ℕ) : ℚ) := by
      exact_mod_cast levenshtein_le_max a b
    have hsim0 : (0 : ℚ) ≤ 1 - (levenshtein a b : ℚ) / ((max a.length b.length : ℕ) : ℚ) := by
      have hq : (levenshtein a b : ℚ) / ((max a.length b.length : ℕ) : ℚ) ≤ 1 :=
        (div_le_one hm).mpr hdm
      linarith
    have heq : calculate_pronunciation_similarity a b =
        min ((1 - (levenshtein a b : ℚ) / ((max a.length b.length : ℕ) : ℚ)) +
          (if ((a.length : ℤ) - (b.length : ℤ)).natAbs ≤ 1 then 1 / 10 else 0)) 1 := by
      simp only [calculate_pronunciation_similarity, if_neg hor, levenshtein_distance_eq]
      rw [if_neg (by omega : ¬ max a.length b.length = 0)]
      by_cases hlen : ((a.length : ℤ) - (b.length : ℤ)).natAbs ≤ 1
      · rw [if_pos hlen, if_pos hlen]
      · rw [if_neg hlen, if_neg hlen, add_zero]
    have hbonus : (0 : ℚ) ≤
        if ((a.length : ℤ) - (b.length : ℤ)).natAbs ≤ 1 then (1 : ℚ) / 10 else 0 := by
      split <;> norm_num
    refine ⟨by rw [heq, min_comm], ?_, ?_⟩
    · rw [heq]
      exact le_min (by linarith) (by norm_num)
    · rw [heq]
      exact min_le_right _ _
  · intro hor
    simp [calculate_pronunciation_similarity, hor]

/-- Witness for C4 at concrete inputs. -/
theorem similarity_formula_witness :
    (calculate_pronunciation_similarity ['p', 'a'] ['p', 'o'] =
        min 1 ((1 - (levenshtein ['p', 'a'] ['p', 'o'] : ℚ) /
          ((max (['p', 'a'] : Str).length (['p', 'o'] : Str).length : ℕ) : ℚ)) +
          (if (((['p', 'a'] : Str).length : ℤ) -
              ((['p', 'o'] : Str).length : ℤ)).natAbs ≤ 1 then 1 / 10 else 0)) ∧
      0 ≤ calculate_pronunciation_similarity ['p', 'a'] ['p', 'o'] ∧
      calculate_pronunciation_similarity ['p', 'a'] ['p', 'o'] ≤ 1) ∧
    calculate_pronunciation_similarity [] ['p'] = 0 :=
  ⟨(similarity_formula ['p', 'a'] ['p', 'o']).1 (by decide) (by decide),
   (similarity_formula [] ['p']).2 (Or.inl rfl)⟩

/-- C5: the pronunciation-similarity score is symmetric in its two
arguments. -/
theorem similarity_symm (a b : Str) :
    calculate_pronunciation_similarity a b = calculate_pronunciation_similarity b a := by
  by_cases hor : a = [] ∨ b = []
  · have hor2 : b = [] ∨ a = [] := hor.symm
    simp [calculate_pronunciation_similarity, hor, hor2]
  · have hor2 : ¬(b = [] ∨ a = []) := fun h => hor h.symm
    simp only [calculate_pronunciation_similarity, if_neg hor, if_neg hor2]
    rw [show levenshtein_distance a b = levenshtein_distance b a by
      rw [levenshtein_distance_eq, levenshtein_distance_eq, levenshtein_comm]]
    rw [Nat.max_comm a.length b.length]
    rw [show ((a.length : ℤ) - (b.length : ℤ)).natAbs
        = ((b.length : ℤ) - (a.length : ℤ)).natAbs by omega]

/-- C6 (amended): for every non-empty normalized pronunciation string the
self-similarity is exactly 1. -/
theorem self_similarity_amended (a : Str) (ha : a ≠ []) :
    calculate_pronunciation_similarity a a = 1 := by
  have hor : ¬(a = [] ∨ a = []) := by simp [ha]
  have hla : 0 < a.length := List.length_pos.mpr ha
  simp only [calculate_pronunciation_similarity, if_neg hor]
  rw [if_neg (by omega : ¬ max a.length a.length = 0)]
  rw [levenshtein_distance_eq, levenshtein_self]
  rw [if_pos (by omega : ((a.length : ℤ) - (a.length : ℤ)).natAbs ≤ 1)]
  rw [Nat.cast_zero, zero_div, sub_zero]
  rw [min_eq_right (by norm_num)]

/-- Witness for the amended C6 at a concrete input. -/
theorem self_similarity_amended_witness :
    calculate_pronunciation_similarity ['p', 'a'] ['p', 'a'] = 1 :=
  self_similarity_amended ['p', 'a'] (by decide)

/-- Counterexample to C6 as stated: the word `"-"` passes the structural
pre-gate, its normalized pronunciation is the empty string, and the
self-similarity of that pronunciation is 0, not 1. -/
theorem self_similarity_counterexample :
    matchesWordRegex ['-'] = true ∧
    generate_pronunciation ['-'] = [] ∧
    calculate_pronunciation_similarity (generate_pronunciation ['-'])
      (generate_pronunciation ['-']) = 0 ∧
    calculate_pronunciation_similarity (generate_pronunciation ['-'])
      (generate_pronunciation ['-']) ≠ 1 := by
  refine ⟨by decide, by decide, ?_, ?_⟩ <;> decide

/-! ### Theorems: recommendation aggregation (claim C2) -/

/-- C2: for every assignment of settled statuses (Pass, Warning, Fail or
Error) to the four checks, the computed recommendation is Error if any check
is Error, else Reject if any is Fail, else Review if any is Warning, else
Approve. -/
theorem recommendation_matrix (p l h s : Status)
    (hp : p ≠ Status.PENDING) (hl : l ≠ Status.PENDING)
    (hh : h ≠ Status.PENDING) (hs : s ≠ Status.PENDING) :
    generate_recommendation p l h s = specRecommendation p l h s := by
  revert hp hl hh hs
  revert p l h s
  decide

/-- Witness for C2 at a concrete status assignment. -/
theorem recommendation_matrix_witness :
    generate_recommendation Status.PASS Status.FAIL Status.WARNING Status.PASS
      = specRecommendation Status.PASS Status.FAIL Status.WARNING Status.PASS :=
  recommendation_matrix _ _ _ _ (by decide) (by decide) (by decide) (by decide)

/-! ### Theorems: semantic check status (claim C1) -/

/-- Counterexample to C1 as stated: with a store whose only known domain is
`Body`, the proposal (word `pa`, non-empty definition, invalid domain
`Nature`, empty justification) should have semantics status Fail per the
claim (the domain sub-check fails), but the source's final justification
step overwrites the status with Warning. -/
theorem semantics_clobber_counterexample :
    ("Nature".data ∉ validDomains
      ([("kore".data, ⟨some "heart".data, some "Body".data⟩)] : Lexicon)) ∧
    (analyze_semantics_basic
      [("kore".data, ⟨some "heart".data, some "Body".data⟩)]
      "pa".data "water".data "Nature".data []).status = Status.WARNING := by
  constructor <;> decide

/-- C1 (amended): the semantics status is Warning whenever the justification
is empty (even if the domain or definition sub-check failed); otherwise it
is Fail if the domain is not a known domain or the definition is empty, and
Pass otherwise. -/
theorem semantics_status_amended (lex : Lexicon)
    (word definition domain justification : Str) :
    (analyze_semantics_basic lex word definition domain justification).status =
      if justification = [] then Status.WARNING
      else if domain ∉ validDomains lex ∨ definition = [] then Status.FAIL
      else Status.PASS := by
  simp only [analyze_semantics_basic]
  by_cases hj : justification = [] <;>
    by_cases hdom : domain ∉ validDomains lex <;>
      by_cases hdef : definition = [] <;>
        simp [hj, hdom, hdef]

/-! ### Theorems: lexicon analysis (claims C7, C8) -/

theorem verifyRootsLoop_inr_shape (lex : Lexicon) : ∀ (rs : List Str) (msgs : List Msg),
    verifyRootsLoop lex rs = Sum.inr msgs →
    ∀ m ∈ msgs, ∃ r dom defn, m = Msg.passRootExists r dom defn
  | [], msgs => by
    intro h m hm
    simp only [verifyRootsLoop, Sum.inr.injEq] at h
    subst h
    simp at hm
  | r :: rs, msgs => by
    intro h m hm
    simp only [verifyRootsLoop] at h
    cases hlk : lexLookup lex r with
    | none => rw [hlk] at h; cases h
    | some e =>
      rw [hlk] at h
      cases hrec : verifyRootsLoop lex rs with
      | inl m2 => rw [hrec] at h; cases h
      | inr msgs2 =>
        rw [hrec] at h
        rw [Sum.inr.injEq] at h
        subst h
        rcases List.mem_cons.mp hm with rfl | htail
        · exact ⟨r, _, _, rfl⟩
        · exact verifyRootsLoop_inr_shape lex rs msgs2 hrec m htail

theorem verifyRootsLoop_missing (lex : Lexicon) : ∀ rs : List Str,
    (∃ r ∈ rs, lexLookup lex r = none) →
    ∃ r, r ∈ rs ∧ lexLookup lex r = none ∧ verifyRootsLoop lex rs = Sum.inl r
  | [] => by simp
  | r :: rs => by
    intro h
    cases hlk : lexLookup lex r with
    | none => exact ⟨r, by simp, hlk, by simp [verifyRootsLoop, hlk]⟩
    | some e =>
      have h2 : ∃ x ∈ rs, lexLookup lex x = none := by
        rcases h with ⟨x, hx, hnone⟩
        rcases List.mem_cons.mp hx with rfl | hx2
        · rw [hlk] at hnone; cases hnone
        · exact ⟨x, hx2, hnone⟩
      obtain ⟨x, hx, hnone, heq⟩ := verifyRootsLoop_missing lex rs h2
      refine ⟨x, by simp [hx], hnone, ?_⟩
      simp [verifyRootsLoop, hlk, heq]

theorem verifyRootsLoop_allPresent (lex : Lexicon) : ∀ rs : List Str,
    (∀ r ∈ rs, (lexLookup lex r).isSome) →
    ∃ msgs, verifyRootsLoop lex rs = Sum.inr msgs
  | [] => fun _ => ⟨[], rfl⟩
  | r :: rs => by
    intro h
    have h0 := h r (by simp)
    cases hlk : lexLookup lex r with
    | none => rw [hlk] at h0; simp at h0
    | some e =>
      obtain ⟨msgs, hm⟩ := verifyRootsLoop_allPresent lex rs fun x hx => h x (by simp [hx])
      refine ⟨Msg.passRootExists r (e.domain.getD unknownStr)
        (e.definition.getD unknownStr) :: msgs, ?_⟩
      simp [verifyRootsLoop, hlk, hm]

/-- The message component of the domain-consistency heuristic is always one
of the three domain-consistency messages. -/
theorem check_domain_msg (lex : Lexicon) (w d : Str) :
    isDomainMsg (check_compound_domain_consistency lex w d).2 = true := by
  simp only [check_compound_domain_consistency]
  repeat' split
  all_goals simp [isDomainMsg]

theorem isDomainMsg_ne (m : Msg) (hm : isDomainMsg m = true) :
    (∀ w d, m ≠ Msg.failWordExists w d) ∧ (∀ r, m ≠ Msg.failMissingRoot r) := by
  cases m <;> simp [isDomainMsg] at hm ⊢

/-- C7: a candidate word that is verbatim a key of the lexicon store makes
the lexicon check Fail with a message carrying the stored definition; a word
not present contributes the duplicate sub-check's Pass message and no
duplicate Fail message. -/
theorem lexicon_duplicate (lex : Lexicon) (word domain : Str) :
    (∀ e, lexLookup lex word = some e →
      (analyze_lexicon_basic lex word domain).status = Status.FAIL ∧
      Msg.failWordExists word (e.definition.getD unknownStr) ∈
        (analyze_lexicon_basic lex word domain).messages) ∧
    (lexLookup lex word = none →
      Msg.passWordNew word ∈ (analyze_lexicon_basic lex word domain).messages ∧
      ∀ d, Msg.failWordExists word d ∉ (analyze_lexicon_basic lex word domain).messages) := by
  constructor
  · intro e he
    by_cases hhy : '-' ∈ word
    · cases hver : verify_compound_roots lex word with
      | inl root =>
        have hres : analyze_lexicon_basic lex word domain =
            ⟨Status.FAIL, [Msg.failWordExists word (e.definition.getD unknownStr)]
              ++ [Msg.failMissingRoot root]⟩ := by
          simp [analyze_lexicon_basic, he, hhy, hver]
        rw [hres]
        exact ⟨rfl, by simp⟩
      | inr succ =>
        have hres : analyze_lexicon_basic lex word domain =
            ⟨Status.FAIL, [Msg.failWordExists word (e.definition.getD unknownStr)]
              ++ succ⟩ := by
          simp [analyze_lexicon_basic, he, hhy, hver]
        rw [hres]
        exact ⟨rfl, by simp⟩
    · have hres : analyze_lexicon_basic lex word domain =
          ⟨Status.FAIL, [Msg.failWordExists word (e.definition.getD unknownStr)]⟩ := by
        simp [analyze_lexicon_basic, he, hhy]
      rw [hres]
      exact ⟨rfl, by simp⟩
  · intro he
    by_cases hhy : '-' ∈ word
    · cases hver : verify_compound_roots lex word with
      | inl root =>
        have hres : analyze_lexicon_basic lex word domain =
            ⟨Status.FAIL, [Msg.passWordNew word] ++ [Msg.failMissingRoot root]⟩ := by
          simp [analyze_lexicon_basic, he, hhy, hver]
        rw [hres]
        refine ⟨by simp, ?_⟩
        intro d
        simp
      | inr succ =>
        rcases hdc : check_compound_domain_consistency lex word domain with ⟨b, m⟩
        have hm : isDomainMsg m = true := by
          have h0 := check_domain_msg lex word domain
          rw [hdc] at h0
          exact h0
        have hnotin : ∀ d, Msg.failWordExists word d ∉ succ := by
          intro d hd
          obtain ⟨r, dm, df, hshape⟩ := verifyRootsLoop_inr_shape lex
            (word.splitOn '-') succ hver _ hd
          cases hshape
        have hnotm : ∀ d, Msg.failWordExists word d ≠ m := by
          intro d hcon
          exact ((isDomainMsg_ne m hm).1 word d) hcon.symm
        cases b
        · have hres : analyze_lexicon_basic lex word domain =
              ⟨Status.WARNING, ([Msg.passWordNew word] ++ succ) ++ [m]⟩ := by
            simp [analyze_lexicon_basic, he, hhy, hver, hdc]
          rw [hres]
          refine ⟨by simp, ?_⟩
          intro d
          simp only [List.mem_append, List.mem_singleton]
          push_neg
          exact ⟨⟨by simp, hnotin d⟩, hnotm d⟩
        · have hres : analyze_lexicon_basic lex word domain =
              ⟨Status.PASS, ([Msg.passWordNew word] ++ succ) ++ [m]⟩ := by
            simp [analyze_lexicon_basic, he, hhy, hver, hdc]
          rw [hres]
          refine ⟨by simp, ?_⟩
          intro d
          simp only [List.mem_append, List.mem_singleton]
          push_neg
          exact ⟨⟨by simp, hnotin d⟩, hnotm d⟩
    · have hres : analyze_lexicon_basic lex word domain =
          ⟨Status.PASS, [Msg.passWordNew word]⟩ := by
        simp [analyze_lexicon_basic, he, hhy]
      rw [hres]
      refine ⟨by simp, ?_⟩
      intro d
      simp

/-- Witness for C7 at a concrete store: `kore` is stored, `pa` is not. -/
theorem lexicon_duplicate_witness :
    ((analyze_lexicon_basic [("kore".data, ⟨some "heart".data, some "Body".data⟩)]
        "kore".data "Body".data).status = Status.FAIL ∧
      Msg.failWordExists "kore".data
        ((⟨some "heart".data, some "Body".data⟩ : LexEntry).definition.getD unknownStr) ∈
        (analyze_lexicon_basic [("kore".data, ⟨some "heart".data, some "Body".data⟩)]
          "kore".data "Body".data).messages) ∧
    (Msg.passWordNew "pa".data ∈
      (analyze_lexicon_basic [("kore".data, ⟨some "heart".data, some "Body".data⟩)]
        "pa".data "Body".data).messages ∧
      ∀ d, Msg.failWordExists "pa".data d ∉
        (analyze_lexicon_basic [("kore".data, ⟨some "heart".data, some "Body".data⟩)]
          "pa".data "Body".data).messages) :=
  ⟨(lexicon_duplicate [("kore".data, ⟨some "heart".data, some "Body".data⟩)]
      "kore".data "Body".data).1 ⟨some "heart".data, some "Body".data⟩ (by decide),
   (lexicon_duplicate [("kore".data, ⟨some "heart".data, some "Body".data⟩)]
      "pa".data "Body".data).2 (by decide)⟩

/-- C8: for a hyphenated word with a missing root segment the lexicon check
Fails, a message names a missing segment, and no domain-consistency message
appears; when every segment exists, no missing-root Fail message appears. -/
theorem lexicon_roots (lex : Lexicon) (word domain : Str) (hhy : '-' ∈ word) :
    ((∃ r ∈ word.splitOn '-', lexLookup lex r = none) →
      (analyze_lexicon_basic lex word domain).status = Status.FAIL ∧
      (∃ r, r ∈ word.splitOn '-' ∧ lexLookup lex r = none ∧
        Msg.failMissingRoot r ∈ (analyze_lexicon_basic lex word domain).messages) ∧
      (∀ m ∈ (analyze_lexicon_basic lex word domain).messages, isDomainMsg m = false)) ∧
    ((∀ r ∈ word.splitOn '-', (lexLookup lex r).isSome) →
      ∀ r, Msg.failMissingRoot r ∉ (analyze_lexicon_basic lex word domain).messages) := by
  constructor
  · intro hmiss
    obtain ⟨r0, hr0mem, hr0none, hloop⟩ :=
      verifyRootsLoop_missing lex (word.splitOn '-') hmiss
    have hver : verify_compound_roots lex word = Sum.inl r0 := by
      rw [verify_compound_roots, hloop]
    cases he : lexLookup lex word with
    | some e =>
      have hres : analyze_lexicon_basic lex word domain =
          ⟨Status.FAIL, [Msg.failWordExists word (e.definition.getD unknownStr)]
            ++ [Msg.failMissingRoot r0]⟩ := by
        simp [analyze_lexicon_basic, he, hhy, hver]
      rw [hres]
      refine ⟨rfl, ⟨r0, hr0mem, hr0none, by simp⟩, ?_⟩
      intro m hm
      simp only [List.mem_append, List.mem_singleton] at hm
      rcases hm with rfl | rfl <;> rfl
    | none =>
      have hres : analyze_lexicon_basic lex word domain =
          ⟨Status.FAIL, [Msg.passWordNew word] ++ [Msg.failMissingRoot r0]⟩ := by
        simp [analyze_lexicon_basic, he, hhy, hver]
      rw [hres]
      refine ⟨rfl, ⟨r0, hr0mem, hr0none, by simp⟩, ?_⟩
      intro m hm
      simp only [List.mem_append, List.mem_singleton] at hm
      rcases hm with rfl | rfl <;> rfl
  · intro hall r
    obtain ⟨succ, hloop⟩ := verifyRootsLoop_allPresent lex (word.splitOn '-') hall
    have hver : verify_compound_roots lex word = Sum.inr succ := by
      rw [verify_compound_roots, hloop]
    have hnotin : Msg.failMissingRoot r ∉ succ := by
      intro hd
      obtain ⟨rr, dm, df, hshape⟩ := verifyRootsLoop_inr_shape lex
        (word.splitOn '-') succ hloop _ hd
      cases hshape
    cases he : lexLookup lex word with
    | some e =>
      have hres : analyze_lexicon_basic lex word domain =
          ⟨Status.FAIL, [Msg.failWordExists word (e.definition.getD unknownStr)]
            ++ succ⟩ := by
        simp [analyze_lexicon_basic, he, hhy, hver]
      rw [hres]
      simp only [CheckOutcome.messages, List.mem_append, List.mem_singleton]
      push_neg
      exact ⟨by simp, hnotin⟩
    | none =>
      rcases hdc : check_compound_domain_consistency lex word domain with ⟨b, m⟩
      have hm : isDomainMsg m = true := by
        have h0 := check_domain_msg lex word domain
        rw [hdc] at h0
        exact h0
      have hne : Msg.failMissingRoot r ≠ m := fun hc =>
        ((isDomainMsg_ne m hm).2 r) hc.symm
      cases b
      · have hres : analyze_lexicon_basic lex word domain =
            ⟨Status.WARNING, ([Msg.passWordNew word] ++ succ) ++ [m]⟩ := by
          simp [analyze_lexicon_basic, he, hhy, hver, hdc]
        rw [hres]
        simp only [CheckOutcome.messages, List.mem_append, List.mem_singleton]
        push_neg
        exact ⟨⟨by simp, hnotin⟩, hne⟩
      · have hres : analyze_lexicon_basic lex word domain =
            ⟨Status.PASS, ([Msg.passWordNew word] ++ succ) ++ [m]⟩ := by
          simp [analyze_lexicon_basic, he, hhy, hver, hdc]
        rw [hres]
        simp only [CheckOutcome.messages, List.mem_append, List.mem_singleton]
        push_neg
        exact ⟨⟨by simp, hnotin⟩, hne⟩

/-- Witness for C8 at a concrete store: `kore-zuno` has the missing root
`zuno`; every root of `kore-kore` exists. -/
theorem lexicon_roots_witness :
    ((analyze_lexicon_basic [("kore".data, ⟨some "heart".data, some "Body".data⟩)]
        "kore-zuno".data "Body".data).status = Status.FAIL ∧
      (∃ r, r ∈ ("kore-zuno".data : Str).splitOn '-' ∧
        lexLookup [("kore".data, ⟨some "heart".data, some "Body".data⟩)] r = none ∧
        Msg.failMissingRoot r ∈
          (analyze_lexicon_basic [("kore".data, ⟨some "heart".data, some "Body".data⟩)]
            "kore-zuno".data "Body".data).messages) ∧
      (∀ m ∈ (analyze_lexicon_basic [("kore".data, ⟨some "heart".data, some "Body".data⟩)]
          "kore-zuno".data "Body".data).messages, isDomainMsg m = false)) ∧
    (∀ r, Msg.failMissingRoot r ∉
      (analyze_lexicon_basic [("kore".data, ⟨some "heart".data, some "Body".data⟩)]
        "kore-kore".data "Body".data).messages) :=
  ⟨(lexicon_roots [("kore".data, ⟨some "heart".data, some "Body".data⟩)]
      "kore-zuno".data "Body".data (by decide)).1 ⟨"zuno".data, by decide, by decide⟩,
   (lexicon_roots [("kore".data, ⟨some "heart".data, some "Body".data⟩)]
      "kore-kore".data "Body".data (by decide)).2 (by decide)⟩

/-! ### Theorems: phonotactic analysis (claims C9, C10) -/

/-- C10: the consonant-cluster validator never reports a warning (every
return site carries `False`), so the phonotactics status is never Warning. -/
theorem phonotactics_never_warning (word : Str) :
    (analyze_phonotactics_basic word).status ≠ Status.WARNING := by
  have hcw : (validate_consonant_clusters word).is_warning = false := by
    rw [validate_consonant_clusters]
    split <;> rfl
  simp only [analyze_phonotactics_basic, hcw]
  repeat' split
  all_goals simp_all

/-- C9: for a word passing the pre-gate whose hyphen-stripped lowercased
form contains characters outside the phoneme inventory, the phonotactics
status is Fail and the failure message carries each distinct offending
character exactly once. -/
theorem phonotactics_invalid_phonemes (word : Str)
    (hgate : matchesWordRegex word = true ∧ word.length ≤ 50)
    (hbad : ∃ c ∈ clean_word word, c ∉ valid_phonemes) :
    (analyze_phonotactics_basic word).status = Status.FAIL ∧
    ∃ offenders,
      Msg.failInvalidPhonemes offenders ∈ (analyze_phonotactics_basic word).messages ∧
      offenders.Nodup ∧
      ∀ c, c ∈ offenders ↔ (c ∈ clean_word word ∧ c ∉ valid_phonemes) := by
  have hne : (clean_word word).filter (fun c => c ∉ valid_phonemes) ≠ [] := by
    obtain ⟨c, hc, hcv⟩ := hbad
    intro hnil
    have hmem : c ∈ (clean_word word).filter fun c => c ∉ valid_phonemes := by
      simp [List.mem_filter, hc, hcv]
    rw [hnil] at hmem
    simp at hmem
  refine ⟨?_, ((clean_word word).filter fun c => c ∉ valid_phonemes).dedup,
    ?_, List.nodup_dedup _, ?_⟩
  · simp only [analyze_phonotactics_basic, ne_eq, hne, not_false_eq_true, if_true]
    repeat' split
    all_goals simp_all
  · simp only [analyze_phonotactics_basic, ne_eq, hne, not_false_eq_true, if_true]
    repeat' split
    all_goals simp_all
  · intro c
    simp [List.mem_dedup, List.mem_filter]

/-- Witness for C9 at a concrete input: `az` passes the pre-gate and `z` is
not a phoneme. -/
theorem phonotactics_invalid_phonemes_witness :
    (analyze_phonotactics_basic "az".data).status = Status.FAIL ∧
    ∃ offenders,
      Msg.failInvalidPhonemes offenders ∈ (analyze_phonotactics_basic "az".data).messages ∧
      offenders.Nodup ∧
      ∀ c, c ∈ offenders ↔ (c ∈ clean_word "az".data ∧ c ∉ valid_phonemes) :=
  phonotactics_invalid_phonemes "az".data ⟨by decide, by decide⟩
    ⟨'z', by decide, by decide⟩

/-! ### Theorems: pre-analysis hard gate (claim C3) -/

/-- C3 (amended): when the word — after the `strip()` the pipeline applies
to every field — is empty, longer than 50 characters, or contains a
character other than ASCII letters and hyphens, no check runs: all four
check statuses and the recommendation are Error. -/
theorem pre_gate_amended (lex : Lexicon) (fields : ProposalFields)
    (hbad : pyStrip fields.word = [] ∨ (pyStrip fields.word).length > 50 ∨
      ∃ c ∈ pyStrip fields.word, isWordChar c = false) :
    (analyze_proposal lex fields).phonotactics.status = Status.ERROR ∧
    (analyze_proposal lex fields).lexicon.status = Status.ERROR ∧
    (analyze_proposal lex fields).homophones.status = Status.ERROR ∧
    (analyze_proposal lex fields).semantics.status = Status.ERROR ∧
    (analyze_proposal lex fields).recommendation = Recommendation.ERROR := by
  by_cases h1 : pyStrip fields.word = []
  · have hres : analyze_proposal lex fields = set_critical_error CritErr.noWord := by
      simp [analyze_proposal, h1]
    rw [hres]
    exact ⟨rfl, rfl, rfl, rfl, rfl⟩
  · by_cases h2 : (pyStrip fields.word).length > 50
    · have hres : analyze_proposal lex fields
          = set_critical_error (CritErr.wordTooLong (pyStrip fields.word).length) := by
        simp [analyze_proposal, h1, h2]
      rw [hres]
      exact ⟨rfl, rfl, rfl, rfl, rfl⟩
    · have h3 : ∃ c ∈ pyStrip fields.word, isWordChar c = false := by
        rcases hbad with h | h | h
        · exact absurd h h1
        · exact absurd h h2
        · exact h
      have hall : (pyStrip fields.word).all isWordChar = false := by
        obtain ⟨c, hc, hcw⟩ := h3
        cases hcase : (pyStrip fields.word).all isWordChar
        · rfl
        · rw [List.all_eq_true] at hcase
          have hct := hcase c hc
          rw [hcw] at hct
          simp at hct
      have hreg : matchesWordRegex (pyStrip fields.word) = false := by
        rw [matchesWordRegex, hall, Bool.and_false]
      have hres : analyze_proposal lex fields
          = set_critical_error CritErr.invalidChars := by
        simp [analyze_proposal, h1, h2, hreg]
      rw [hres]
      exact ⟨rfl, rfl, rfl, rfl, rfl⟩

/-- Witness for the amended C3 at a concrete input with an illegal
character. -/
theorem pre_gate_amended_witness :
    (analyze_proposal [] ⟨"a!".data, [], [], []⟩).phonotactics.status = Status.ERROR ∧
    (analyze_proposal [] ⟨"a!".data, [], [], []⟩).lexicon.status = Status.ERROR ∧
    (analyze_proposal [] ⟨"a!".data, [], [], []⟩).homophones.status = Status.ERROR ∧
    (analyze_proposal [] ⟨"a!".data, [], [], []⟩).semantics.status = Status.ERROR ∧
    (analyze_proposal [] ⟨"a!".data, [], [], []⟩).recommendation = Recommendation.ERROR :=
  pre_gate_amended [] ⟨"a!".data, [], [], []⟩
    (Or.inr (Or.inr ⟨'!', by decide, by decide⟩))

/-- Counterexample to C3 as stated: the raw word `" a"` contains a space,
which is not an ASCII letter or hyphen, yet the pipeline strips it, passes
the gate and runs the checks (the phonotactics status comes out Pass, not
Error). -/
theorem pre_gate_counterexample :
    (' ' ∈ (" a".data : Str) ∧ isWordChar ' ' = false) ∧
    (analyze_proposal [] ⟨" a".data, [], [], []⟩).phonotactics.status = Status.PASS := by
  refine ⟨⟨by decide, by decide⟩, ?_⟩
  simp only [analyze_proposal]
  rw [show pyStrip (ProposalFields.mk " a".data [] [] []).word = ['a'] from by decide]
  rw [if_neg (by decide), if_neg (by decide), if_neg (by decide)]
  show (analyze_phonotactics_basic ['a']).status = Status.PASS
  simp [analyze_phonotactics_basic, clean_word, valid_phonemes,
    validate_syllable_structure, firstSylErr, is_valid_syllable_sequence,
    syllableLoop, isConsonant, isVowel, consonants, vowels,
    validate_consonant_clusters, clusterErrParts, clusterScanPart]

end Fidakune
